import Mathlib

/-!
Verification of the GF-7 split-generation tool (`generate_gf7_splits.py`).

The development embeds the partitioning core of the script:
`generate_labeled_unlabeled_split` (seeded shuffle + ratio cut),
`create_split_line` (manifest line rendering), `get_image_files`
(directory enumeration), and the `small_*` truncation performed in `main`.

The Python `random` module is external to the repository; it is modelled
as an explicit deterministic generator state threaded through the calls,
which is all the specified properties depend on (determinism, being a
permutation, and re-seeding at the start of every call).
-/

namespace GF7Splits

/-- Modelled from the spec: the state of the module-level pseudorandom
generator right after `random.seed(n)` ("initialize a pseudorandom
generator from the fixed seed"). The generator state is a natural number. -/
def seedState (n : Nat) : Nat := n

/-- Modelled from the spec: one advance of the pseudorandom generator,
a linear-congruential step reduced modulo `2^31`. -/
def randStep (g : Nat) : Nat := (g * 1103515245 + 12345) % 2147483648

/-- Modelled from the spec: draw an index below `n` (for `n > 0`) from the
generator, returning the drawn index and the advanced generator state. -/
def randbelow (g n : Nat) : Nat × Nat :=
  (randStep g % n, randStep g)

/-- Modelled from the spec: "apply a uniform random shuffle (Fisher-Yates or
equivalent)". Each round draws an index into the remaining list, extracts
that element, and recurses on the rest; `fuel` bounds the recursion by the
length of the list. -/
def shuffleAux {α : Type} [DecidableEq α] : Nat → Nat → List α → List α × Nat
  | 0, g, l => (l, g)
  | _ + 1, g, [] => ([], g)
  | fuel + 1, g, x :: xs =>
    let l := x :: xs
    let j := (randbelow g l.length).1
    let g2 := (randbelow g l.length).2
    let a := l.getD j x
    let rest := shuffleAux fuel g2 (l.erase a)
    (a :: rest.1, rest.2)

/-- Modelled from the spec: `random.shuffle` on (a copy of) the list, from
generator state `g`; returns the shuffled list and the final state. -/
def shuffle {α : Type} [DecidableEq α] (g : Nat) (l : List α) : List α × Nat :=
  shuffleAux l.length g l

theorem getD_cons_mem {α : Type} (x : α) (xs : List α) (j : Nat) :
    (x :: xs).getD j x ∈ x :: xs := by
  rcases Nat.lt_or_ge j (x :: xs).length with h | h
  · rw [List.getD_eq_getElem?_getD, List.getElem?_eq_getElem h]
    exact List.getElem_mem h
  · rw [List.getD_eq_getElem?_getD, List.getElem?_eq_none h]
    exact List.mem_cons_self x xs

theorem shuffleAux_perm {α : Type} [DecidableEq α] :
    ∀ (fuel g : Nat) (l : List α), l.length ≤ fuel →
      ((shuffleAux fuel g l).1).Perm l := by
  intro fuel
  induction fuel with
  | zero =>
    intro g l h
    have : l = [] := List.eq_nil_of_length_eq_zero (Nat.le_zero.mp h)
    subst this
    simp [shuffleAux]
  | succ n ih =>
    intro g l h
    match l with
    | [] => simp [shuffleAux]
    | x :: xs =>
      have ha : (x :: xs).getD ((randbelow g (x :: xs).length).1) x ∈ x :: xs :=
        getD_cons_mem x xs _
      have hperm := List.perm_cons_erase ha
      have hlen : ((x :: xs).erase ((x :: xs).getD ((randbelow g (x :: xs).length).1) x)).length ≤ n := by
        rw [List.length_erase_of_mem ha]
        simp only [List.length_cons] at h ⊢
        omega
      have htail := ih ((randbelow g (x :: xs).length).2) _ hlen
      simp only [shuffleAux]
      exact (htail.cons _).trans hperm.symm

theorem shuffle_perm {α : Type} [DecidableEq α] (g : Nat) (l : List α) :
    ((shuffle g l).1).Perm l :=
  shuffleAux_perm l.length g l (Nat.le_refl _)

theorem shuffle_length {α : Type} [DecidableEq α] (g : Nat) (l : List α) :
    (shuffle g l).1.length = l.length :=
  (shuffle_perm g l).length_eq

/-- Embedding of `generate_labeled_unlabeled_split` with the externally
observable state made explicit: the function receives the caller's list and
the current global generator state `g`, and returns the
`(labeled, unlabeled)` result together with the caller's list after the call
(the source shuffles `all_images.copy()`, never `all_images`) and the global
generator state after the call (the source begins with `random.seed(42)`,
discarding `g`, and `random.shuffle` advances the freshly seeded state). -/
def generate_labeled_unlabeled_split_run (all_images : List String) (ratio : Nat)
    (g : Nat) : (List String × List String) × List String × Nat :=
  let g1 := seedState 42
  let shuffled := (shuffle g1 all_images).1
  let g2 := (shuffle g1 all_images).2
  let num_labeled := shuffled.length / ratio
  ((shuffled.take num_labeled, shuffled.drop num_labeled), (all_images, g2))

/-- Embedding of `generate_labeled_unlabeled_split`, result component only.
Because the source re-seeds with the constant 42 on entry, the result is a
function of `(all_images, ratio)` alone. -/
def generate_labeled_unlabeled_split (all_images : List String) (ratio : Nat) :
    List String × List String :=
  (generate_labeled_unlabeled_split_run all_images ratio 0).1

theorem generate_split_eq (l : List String) (r : Nat) :
    generate_labeled_unlabeled_split l r =
      ((shuffle (seedState 42) l).1.take ((shuffle (seedState 42) l).1.length / r),
       (shuffle (seedState 42) l).1.drop ((shuffle (seedState 42) l).1.length / r)) :=
  rfl

/-- Embedding of `create_split_line`: renders one manifest line. The source
also computes `base_name` (the identifier with `.tif` removed) but never
uses it. -/
def create_split_line (image_name : String) (split : String) : String :=
  let base_name := image_name.replace ".tif" ""
  split ++ "/image/" ++ image_name ++ " " ++ split ++ "/label/" ++ image_name

/-- Embedding of the manifest-writing loops of `main`: each identifier is
rendered with `create_split_line` and written newline-terminated, in order. -/
def render_manifest (imgs : List String) (split : String) : String :=
  String.join (imgs.map (fun img => create_split_line img split ++ "\n"))

/-- Embedding of the `small_*` truncation in `main`
(`xs[:max(1, len(xs) // 100)]`). -/
def small_split (s : List String) : List String :=
  s.take (max 1 (s.length / 100))

/-- Comparator used by the enumeration model, Python's default ascending
string order. -/
def strLe (a b : String) : Bool := decide (a ≤ b)

/-- Embedding of `get_image_files`. The filesystem is modelled as a partial
map `fs` from a directory path to its list of entries (`none` when the
directory does not exist). Returns the enumerated filenames together with
the list of warnings printed; the `none` branch returns the empty
enumeration plus the warning, mirroring the source's early return. -/
def get_image_files (fs : String → Option (List String)) (base_dir : String)
    (split : String) : List String × List String :=
  let image_dir := base_dir ++ "/" ++ split ++ "/image"
  match fs image_dir with
  | none => ([], ["Warning: " ++ image_dir ++ " does not exist"])
  | some entries =>
    (((entries.filter (fun f => f.endsWith ".tif")).mergeSort strLe), [])

theorem labeled_eq (l : List String) (r : Nat) :
    (generate_labeled_unlabeled_split l r).1 =
      (shuffle (seedState 42) l).1.take ((shuffle (seedState 42) l).1.length / r) :=
  rfl

theorem unlabeled_eq (l : List String) (r : Nat) :
    (generate_labeled_unlabeled_split l r).2 =
      (shuffle (seedState 42) l).1.drop ((shuffle (seedState 42) l).1.length / r) :=
  rfl

theorem strLe_trans (a b c : String) : strLe a b → strLe b c → strLe a c := by
  simp only [strLe, decide_eq_true_eq]
  exact le_trans

theorem strLe_total (a b : String) : strLe a b || strLe b a := by
  simp only [strLe, Bool.or_eq_true, decide_eq_true_eq]
  exact le_total a b

/-- C1: for every identifier sequence of size `N` and every positive ratio `r`,
`generate_labeled_unlabeled_split` returns `(labeled, unlabeled)` with
`|labeled| = N / r` (floor division) and `|unlabeled| = N - N / r`. -/
theorem generate_split_sizes (l : List String) (r : Nat) (h : 0 < r) :
    (generate_labeled_unlabeled_split l r).1.length = l.length / r ∧
    (generate_labeled_unlabeled_split l r).2.length = l.length - l.length / r := by
  have hlen := shuffle_length (seedState 42) l
  rw [labeled_eq, unlabeled_eq]
  constructor
  · rw [List.length_take, hlen]
    exact Nat.min_eq_left (Nat.div_le_self _ _)
  · rw [List.length_drop, hlen]

/-- Witness for C1 at the input `["a", "b", "c"]` with ratio 2. -/
theorem generate_split_sizes_witness :
    0 < 2 ∧
    ((generate_labeled_unlabeled_split ["a", "b", "c"] 2).1.length = 3 / 2 ∧
     (generate_labeled_unlabeled_split ["a", "b", "c"] 2).2.length = 3 - 3 / 2) :=
  ⟨by decide, generate_split_sizes ["a", "b", "c"] 2 (by decide)⟩

/-- C2 counterexample: on the input `["a", "a"]` (a sequence with a repeated
identifier) and ratio 2, the two halves both contain `"a"`, so the claim's
"labeled and unlabeled are disjoint" part fails for this identifier
sequence; the disjointness invariant requires a duplicate-free input. -/
theorem generate_split_not_always_disjoint :
    ¬ (List.Disjoint (generate_labeled_unlabeled_split ["a", "a"] 2).1
         (generate_labeled_unlabeled_split ["a", "a"] 2).2 ∧
       ((generate_labeled_unlabeled_split ["a", "a"] 2).1 ++
         (generate_labeled_unlabeled_split ["a", "a"] 2).2).Perm ["a", "a"]) := by
  intro hc
  exact hc.1 (show "a" ∈ (generate_labeled_unlabeled_split ["a", "a"] 2).1 by decide)
    (show "a" ∈ (generate_labeled_unlabeled_split ["a", "a"] 2).2 by decide)

/-- C2 (amended): for every duplicate-free identifier sequence, the
`(labeled, unlabeled)` pair partitions the input: the halves are disjoint
and their concatenation is a permutation of the input sequence. -/
theorem generate_split_partitions_of_nodup (l : List String) (r : Nat) (h : l.Nodup) :
    List.Disjoint (generate_labeled_unlabeled_split l r).1
      (generate_labeled_unlabeled_split l r).2 ∧
    ((generate_labeled_unlabeled_split l r).1 ++
      (generate_labeled_unlabeled_split l r).2).Perm l := by
  have hperm := shuffle_perm (seedState 42) l
  have hnd : (shuffle (seedState 42) l).1.Nodup := hperm.nodup_iff.mpr h
  rw [labeled_eq, unlabeled_eq]
  constructor
  · exact List.disjoint_take_drop hnd (Nat.le_refl _)
  · rw [List.take_append_drop]
    exact hperm

/-- Witness for the amended C2 at the duplicate-free input `["a", "b"]`. -/
theorem generate_split_partitions_witness :
    (["a", "b"] : List String).Nodup ∧
    (List.Disjoint (generate_labeled_unlabeled_split ["a", "b"] 2).1
       (generate_labeled_unlabeled_split ["a", "b"] 2).2 ∧
     ((generate_labeled_unlabeled_split ["a", "b"] 2).1 ++
       (generate_labeled_unlabeled_split ["a", "b"] 2).2).Perm ["a", "b"]) :=
  ⟨by decide, generate_split_partitions_of_nodup ["a", "b"] 2 (by decide)⟩

/-- C3: the call re-seeds the generator with the fixed seed 42 on entry, so
the run (result, caller's list, final generator state) is independent of the
incoming global generator state: two runs from arbitrary prior states agree
on the `(labeled, unlabeled)` result, the result equals the pure function of
`(input, ratio)`, and the rendered manifest texts are identical. -/
theorem generate_split_call_order_independent (l : List String) (r : Nat)
    (g g' : Nat) :
    generate_labeled_unlabeled_split_run l r g =
      generate_labeled_unlabeled_split_run l r g' ∧
    (generate_labeled_unlabeled_split_run l r g).1 =
      generate_labeled_unlabeled_split l r ∧
    render_manifest (generate_labeled_unlabeled_split_run l r g).1.1 "Train" =
      render_manifest (generate_labeled_unlabeled_split_run l r g').1.1 "Train" ∧
    render_manifest (generate_labeled_unlabeled_split_run l r g).1.2 "Train" =
      render_manifest (generate_labeled_unlabeled_split_run l r g').1.2 "Train" :=
  ⟨rfl, rfl, rfl, rfl⟩

/-- C4: for ratios in `{32, 64}`, whenever the labeled half of the `1_r`
split is nonempty, its small variant (the truncation performed in `main`)
has exactly `max 1 (count / 100)` elements and is a prefix of the labeled
half, preserving the existing order. -/
theorem small_variant_sizing (l : List String) (r : Nat) (hr : r = 32 ∨ r = 64)
    (h : (generate_labeled_unlabeled_split l r).1 ≠ []) :
    (small_split (generate_labeled_unlabeled_split l r).1).length =
      max 1 ((generate_labeled_unlabeled_split l r).1.length / 100) ∧
    small_split (generate_labeled_unlabeled_split l r).1 <+:
      (generate_labeled_unlabeled_split l r).1 := by
  have hpos : 0 < (generate_labeled_unlabeled_split l r).1.length :=
    List.length_pos.mpr h
  constructor
  · simp only [small_split, List.length_take]
    omega
  · exact List.take_prefix _ _

/-- Witness for C4 at a 32-element input with ratio 32 (labeled half has one
element). -/
theorem small_variant_sizing_witness :
    ((32 = 32 ∨ 32 = 64) ∧
      (generate_labeled_unlabeled_split (List.replicate 32 "a") 32).1 ≠ []) ∧
    ((small_split (generate_labeled_unlabeled_split (List.replicate 32 "a") 32).1).length =
      max 1 ((generate_labeled_unlabeled_split (List.replicate 32 "a") 32).1.length / 100) ∧
     small_split (generate_labeled_unlabeled_split (List.replicate 32 "a") 32).1 <+:
       (generate_labeled_unlabeled_split (List.replicate 32 "a") 32).1) :=
  ⟨⟨Or.inl rfl, by decide⟩,
    small_variant_sizing (List.replicate 32 "a") 32 (Or.inl rfl) (by decide)⟩

/-- C5 counterexample: at the input `["a"]` with ratio `1` we have
`r = N = 1 > 0`, yet `floor(N/r) = 1`, so the labeled half takes the whole
input and the unlabeled half is empty — not the full input set as the claim
states for every `r ≥ N`. -/
theorem unlabeled_not_full_at_ratio_eq_size :
    ¬ ((generate_labeled_unlabeled_split ["a"] 1).2.Perm ["a"]) := by decide

/-- C5 (amended): for `N = 0` both halves are empty; and for every ratio
`r > N` (strictly greater, rather than `r ≥ N`), the labeled half is empty
and the unlabeled half is the full input set (a permutation of the input). -/
theorem generate_split_edge_cases (l : List String) (r : Nat) :
    generate_labeled_unlabeled_split [] r = ([], []) ∧
    (l.length < r →
      (generate_labeled_unlabeled_split l r).1 = [] ∧
      ((generate_labeled_unlabeled_split l r).2).Perm l) := by
  constructor
  · simp [generate_labeled_unlabeled_split, generate_labeled_unlabeled_split_run,
      shuffle, shuffleAux]
  · intro hlt
    have hperm := shuffle_perm (seedState 42) l
    have hlen := shuffle_length (seedState 42) l
    have hz : (shuffle (seedState 42) l).1.length / r = 0 := by
      rw [hlen]
      exact Nat.div_eq_of_lt hlt
    rw [labeled_eq, unlabeled_eq, hz]
    exact ⟨List.take_zero _, by rw [List.drop_zero]; exact hperm⟩

/-- Witness for the amended C5 at the input `["a"]` with ratio 2. -/
theorem generate_split_edge_cases_witness :
    (["a"] : List String).length < 2 ∧
    ((generate_labeled_unlabeled_split ["a"] 2).1 = [] ∧
     ((generate_labeled_unlabeled_split ["a"] 2).2).Perm ["a"]) :=
  ⟨by decide, (generate_split_edge_cases ["a"] 2).2 (by decide)⟩

/-- C6 counterexample: starting from global generator state `0`, a call to
the split routine on the empty list leaves the global generator state at
`seedState 42 = 42 ≠ 0` — the call re-seeds (and, on nonempty input,
advances) the module-level generator, so observable state outside the
function is modified. -/
theorem generator_state_modified :
    (generate_labeled_unlabeled_split_run [] 1 0).2.2 ≠ 0 := by decide

/-- C6 (amended): `generate_labeled_unlabeled_split` shuffles a copy, so the
caller's input list is unchanged after the call, and its result is the pure
function of `(input, ratio)`; the one piece of external state it modifies is
the module-level generator state, which it re-seeds with 42 and advances by
the shuffle (independently of the incoming state). -/
theorem generate_split_frame (l : List String) (r : Nat) (g : Nat) :
    (generate_labeled_unlabeled_split_run l r g).2.1 = l ∧
    (generate_labeled_unlabeled_split_run l r g).1 =
      generate_labeled_unlabeled_split l r ∧
    (generate_labeled_unlabeled_split_run l r g).2.2 =
      (shuffle (seedState 42) l).2 :=
  ⟨rfl, rfl, rfl⟩

/-- C7: for every filesystem, base path and partition name,
`get_image_files` on a missing `<base>/<partition>/image` directory returns
the empty enumeration together with the non-fatal warning; on an existing
directory it returns a lexicographically ascending sorted permutation of the
entries with the `.tif` extension, with no warning. -/
theorem get_image_files_spec (fs : String → Option (List String))
    (base_dir : String) (split : String) :
    (fs (base_dir ++ "/" ++ split ++ "/image") = none →
      get_image_files fs base_dir split =
        ([], ["Warning: " ++ (base_dir ++ "/" ++ split ++ "/image") ++
          " does not exist"])) ∧
    (∀ entries, fs (base_dir ++ "/" ++ split ++ "/image") = some entries →
      (get_image_files fs base_dir split).1.Sorted (· ≤ ·) ∧
      (get_image_files fs base_dir split).1.Perm
        (entries.filter (fun f => f.endsWith ".tif")) ∧
      (get_image_files fs base_dir split).2 = []) := by
  constructor
  · intro h
    simp only [get_image_files, h]
  · intro entries h
    simp only [get_image_files, h]
    refine ⟨?_, ?_, trivial⟩
    · have hp := List.sorted_mergeSort strLe_trans strLe_total
        (entries.filter (fun f => f.endsWith ".tif"))
      exact hp.imp (fun hab => by simpa [strLe, decide_eq_true_eq] using hab)
    · exact List.mergeSort_perm (entries.filter (fun f => f.endsWith ".tif")) strLe

/-- Witness for C7: a filesystem with no directories (missing-directory
branch) and one with an image directory holding `b.tif`, `a.tif`, `c.png`
(existing-directory branch). -/
theorem get_image_files_spec_witness :
    (get_image_files (fun _ => none) "base" "Train" =
      ([], ["Warning: " ++ ("base" ++ "/" ++ "Train" ++ "/image") ++
        " does not exist"])) ∧
    ((get_image_files (fun _ => some ["b.tif", "a.tif", "c.png"]) "base" "Train").1.Sorted
        (· ≤ ·) ∧
     (get_image_files (fun _ => some ["b.tif", "a.tif", "c.png"]) "base" "Train").1.Perm
       (["b.tif", "a.tif", "c.png"].filter (fun f => f.endsWith ".tif")) ∧
     (get_image_files (fun _ => some ["b.tif", "a.tif", "c.png"]) "base" "Train").2 = []) :=
  ⟨(get_image_files_spec (fun _ => none) "base" "Train").1 rfl,
   (get_image_files_spec (fun _ => some ["b.tif", "a.tif", "c.png"]) "base" "Train").2
     ["b.tif", "a.tif", "c.png"] rfl⟩

/-- C8: `create_split_line` is the pure map
`(identifier, partition) ↦ "<partition>/image/<identifier> <partition>/label/<identifier>"`,
single-space separated and with the identifier unchanged; in particular on
`"tile_007.tif"` and `"Train"` it yields
`"Train/image/tile_007.tif Train/label/tile_007.tif"`. -/
theorem create_split_line_spec :
    (∀ image_name split : String,
      create_split_line image_name split =
        split ++ "/image/" ++ image_name ++ " " ++ split ++ "/label/" ++ image_name) ∧
    create_split_line "tile_007.tif" "Train" =
      "Train/image/tile_007.tif Train/label/tile_007.tif" :=
  ⟨fun _ _ => rfl, by decide⟩

/-- C9: for any two positive ratios `r1 ≤ r2`, the labeled half produced for
`r2` is a prefix of the labeled half produced for `r1`: every call re-seeds
with the same fixed seed, so both cut the identical shuffled permutation,
only at different points `N / r2 ≤ N / r1`. -/
theorem labeled_nested_across_ratios (l : List String) (r1 r2 : Nat)
    (h1 : 0 < r1) (h2 : r1 ≤ r2) :
    (generate_labeled_unlabeled_split l r2).1 <+:
      (generate_labeled_unlabeled_split l r1).1 := by
  rw [labeled_eq, labeled_eq]
  have hle : (shuffle (seedState 42) l).1.length / r2 ≤
      (shuffle (seedState 42) l).1.length / r1 :=
    Nat.div_le_div_left h2 h1
  have h3 : (shuffle (seedState 42) l).1.take
      ((shuffle (seedState 42) l).1.length / r2) =
      ((shuffle (seedState 42) l).1.take
        ((shuffle (seedState 42) l).1.length / r1)).take
        ((shuffle (seedState 42) l).1.length / r2) := by
    rw [List.take_take, Nat.min_eq_left hle]
  rw [h3]
  exact List.take_prefix _ _

/-- Witness for C9 at the input `["a", "b", "c", "d"]` with ratios 2 and 4. -/
theorem labeled_nested_across_ratios_witness :
    (0 < 2 ∧ 2 ≤ 4) ∧
    (generate_labeled_unlabeled_split ["a", "b", "c", "d"] 4).1 <+:
      (generate_labeled_unlabeled_split ["a", "b", "c", "d"] 2).1 :=
  ⟨⟨by decide, by decide⟩,
    labeled_nested_across_ratios ["a", "b", "c", "d"] 2 4 (by decide) (by decide)⟩

/-- C10: when the labeled (or unlabeled) half of a split is empty, its small
variant is also empty — taking the first `max 1 (0 / 100) = 1` elements of
an empty sequence yields the empty sequence, so the `max 1 _` lower bound
only applies to nonempty parents. -/
theorem small_of_empty_parent (l : List String) (r : Nat) :
    ((generate_labeled_unlabeled_split l r).1 = [] →
      small_split (generate_labeled_unlabeled_split l r).1 = []) ∧
    ((generate_labeled_unlabeled_split l r).2 = [] →
      small_split (generate_labeled_unlabeled_split l r).2 = []) := by
  constructor <;> intro h <;> rw [h] <;> decide

/-- Witness for C10 at the empty input with ratio 32 (both halves empty). -/
theorem small_of_empty_parent_witness :
    ((generate_labeled_unlabeled_split [] 32).1 = [] ∧
      small_split (generate_labeled_unlabeled_split [] 32).1 = []) ∧
    ((generate_labeled_unlabeled_split [] 32).2 = [] ∧
      small_split (generate_labeled_unlabeled_split [] 32).2 = []) :=
  ⟨⟨by decide, (small_of_empty_parent [] 32).1 (by decide)⟩,
   ⟨by decide, (small_of_empty_parent [] 32).2 (by decide)⟩⟩

end GF7Splits
